import Mathlib

/-! Verification of the dendrite current-state projection store
(`currentstateserver/storage/postgres/current_room_state_table.go`).

The table `currentstate_current_room_state` is modelled as a list of rows
(`Store`).  The SQL statements of the source file are translated row by row:

* `upsertRoomStateSQL` — `INSERT ... ON CONFLICT ON CONSTRAINT
  currentstate_current_room_state_unique DO UPDATE SET event_id = $2,
  sender = $4, headered_event_json = $6, content_value = $7`:
  the first row whose `(room_id, type, state_key)` key equals the inserted
  row key is updated in place (only the four SET columns change), and if
  no row conflicts the row is inserted.
* `deleteRoomStateByEventIDSQL` — `DELETE ... WHERE event_id = $1`.
* `selectRoomIDsWithMembershipSQL`, `selectStateEventSQL`,
  `selectEventsWithEventIDsSQL`, `selectBulkStateContentSQL`,
  `selectBulkStateContentWildSQL` — `WHERE` clauses become list filters,
  `x = ANY($n)` becomes list membership.

Row order inside a `Store` is irrelevant to every property proved here
(SQL result order is unspecified); query results are characterised by
membership.
-/

namespace Dendrite.CurrentState

/-- One row of `currentstate_current_room_state` (schema lines 31–48 of the
source).  Column names are kept verbatim. -/
structure CurrentStateRecord where
  room_id : String
  event_id : String
  type : String
  sender : String
  state_key : String
  headered_event_json : String
  content_value : String
  deriving DecidableEq, Repr

/-- The accessors of `gomatrixserverlib.HeaderedEvent` used by
`UpsertRoomState`: `RoomID()`, `EventID()`, `Type()`, `Sender()`,
`StateKey()` (a nullable pointer, hence `Option`), plus the rest of the
payload that only influences the marshalled JSON. -/
structure HeaderedEvent where
  roomID : String
  eventID : String
  type : String
  sender : String
  stateKey : Option String
  content : String
  deriving DecidableEq, Repr

/-- Models `json.Marshal(event)`: an opaque serialisation of the whole event.
The table code never inspects the envelope, so any total injective-enough
encoding is faithful; we use a separator encoding. -/
def marshalHeaderedEvent (e : HeaderedEvent) : String :=
  e.roomID ++ "|" ++ e.eventID ++ "|" ++ e.type ++ "|" ++ e.sender ++ "|"
    ++ (e.stateKey.getD "<nil>") ++ "|" ++ e.content

/-- The type `gomatrixserverlib.StateKeyTuple` as consumed by
`SelectBulkStateContent`. -/
structure StateKeyTuple where
  EventType : String
  StateKey : String
  deriving DecidableEq, Repr

/-- The type `tables.StrippedEvent`: the flattened four-column projection returned
by `SelectBulkStateContent`. -/
structure StrippedEvent where
  RoomID : String
  ContentValue : String
  EventType : String
  StateKey : String
  deriving DecidableEq, Repr

/-- The table contents. -/
abbrev Store := List CurrentStateRecord

/-- The columns of the `currentstate_current_room_state_unique` constraint:
`UNIQUE (room_id, type, state_key)`. -/
def key (r : CurrentStateRecord) : String × String × String :=
  (r.room_id, r.type, r.state_key)

/-- Evaluates `WHERE room_id = $1 AND type = $2 AND state_key = $3` for one row. -/
def matchesTuple (r : CurrentStateRecord) (roomID evType stateKey : String) : Bool :=
  r.room_id == roomID && r.type == evType && r.state_key == stateKey

/-- Two rows collide on the unique constraint. -/
def sameTupleKey (a b : CurrentStateRecord) : Bool :=
  matchesTuple a b.room_id b.type b.state_key

/-- The invariant the `UNIQUE (room_id, type, state_key)` constraint
enforces: no two rows share a key. -/
def distinctKeys : Store → Bool
  | [] => true
  | r :: rest => rest.all (fun x => !(sameTupleKey r x)) && distinctKeys rest

/-- The `DO UPDATE SET event_id = $2, sender = $4,
headered_event_json = $6, content_value = $7` arm of the upsert: only the
four SET columns of the conflicting row change. -/
def updateRow (old row : CurrentStateRecord) : CurrentStateRecord :=
  { old with
    event_id := row.event_id
    sender := row.sender
    headered_event_json := row.headered_event_json
    content_value := row.content_value }

/-- Applies `upsertRoomStateSQL` to the table: update the conflicting row in place,
or insert when no row conflicts. -/
def upsertRecord : Store → CurrentStateRecord → Store
  | [], row => [row]
  | r :: rest, row =>
      if sameTupleKey r row then updateRow r row :: rest
      else r :: upsertRecord rest row

/-- Outcome of `UpsertRoomState`.  The Go function dereferences
`event.StateKey()` unconditionally (`*event.StateKey()`, line 170); a nil
state key is a runtime panic, not a returned error, hence the dedicated
constructor.  (`json.Marshal` of the event is total in this model and the
storage engine is assumed available, so no error-return arises.) -/
inductive UpsertOutcome where
  | ok (s : Store)
  | nilStateKeyPanic
  deriving DecidableEq, Repr

/-- The row that `UpsertRoomState` binds to the placeholders
`$1 .. $7` of `upsertRoomStateSQL`. -/
def recordOfEvent (event : HeaderedEvent) (sk contentVal : String) : CurrentStateRecord :=
  { room_id := event.roomID
    event_id := event.eventID
    type := event.type
    sender := event.sender
    state_key := sk
    headered_event_json := marshalHeaderedEvent event
    content_value := contentVal }

/-- Models `UpsertRoomState` (source lines 153–175): marshal the event, then
execute the upsert with `*event.StateKey()` — a panic when the state key
is absent. -/
def UpsertRoomState (s : Store) (event : HeaderedEvent) (contentVal : String) : UpsertOutcome :=
  match event.stateKey with
  | none => .nilStateKeyPanic
  | some sk => .ok (upsertRecord s (recordOfEvent event sk contentVal))

/-- Models `DeleteRoomStateByEventID` (source lines 145–151):
`DELETE FROM currentstate_current_room_state WHERE event_id = $1`.
The Go function returns only the storage-engine error; there is no not-found
error path, so the model is total. -/
def DeleteRoomStateByEventID (s : Store) (eventID : String) : Store :=
  s.filter (fun r => !(r.event_id == eventID))

/-- Models `SelectRoomIDsWithMembership` (source lines 121–143):
the SQL selects `room_id` from rows whose type is the membership type and
whose `state_key` and `content_value` equal the two arguments. -/
def SelectRoomIDsWithMembership (s : Store) (userID contentVal : String) : List String :=
  (s.filter (fun r =>
      r.type == "m.room.member" && r.state_key == userID && r.content_value == contentVal)).map
    (fun r => r.room_id)

/-- Models `SelectStateEvent` (source lines 201–218): `QueryRow` over
`selectStateEventSQL` scans the first matching row;
`sql.ErrNoRows` is turned into a `nil, nil` return, modelled as `none`.
The returned value is the stored envelope (the Go code unmarshals it back
into an event). -/
def SelectStateEvent (s : Store) (roomID evType stateKey : String) : Option String :=
  (s.find? (fun r => matchesTuple r roomID evType stateKey)).map
    (fun r => r.headered_event_json)

/-- Models `SelectEventsWithEventIDs` (source lines 177–199):
`SELECT headered_event_json ... WHERE event_id = ANY($1)`; each returned
envelope is unmarshalled by the Go code, we return the envelopes. -/
def SelectEventsWithEventIDs (s : Store) (eventIDs : List String) : List String :=
  (s.filter (fun r => eventIDs.contains r.event_id)).map
    (fun r => r.headered_event_json)

/-- The event-type deduplication loop of `SelectBulkStateContent`
(source lines 228–232): append the `EventType` of each tuple unless already
seen. -/
def collectTypes : List StateKeyTuple → List String → List String
  | [], acc => acc
  | t :: rest, acc =>
      collectTypes rest (if acc.contains t.EventType then acc else acc ++ [t.EventType])

/-- The state-key deduplication loop of `SelectBulkStateContent`
(source lines 233–236). -/
def collectKeys : List StateKeyTuple → List String → List String
  | [], acc => acc
  | t :: rest, acc =>
      collectKeys rest (if acc.contains t.StateKey then acc else acc ++ [t.StateKey])

/-- The `hasWildcards` flag (source lines 237–239). -/
def hasWildcards (tuples : List StateKeyTuple) : Bool :=
  tuples.any (fun t => t.StateKey == "*")

/-- The four scalar columns scanned into a `tables.StrippedEvent`
(source lines 255–269). -/
def stripRecord (r : CurrentStateRecord) : StrippedEvent :=
  { RoomID := r.room_id
    ContentValue := r.content_value
    EventType := r.type
    StateKey := r.state_key }

/-- Models `SelectBulkStateContent` (source lines 220–271): deduplicate the
requested types and state keys, then run `selectBulkStateContentWildSQL`
(room and type filters only) when a wildcard is present and allowed, else
`selectBulkStateContentSQL` (room, type and state-key filters). -/
def SelectBulkStateContent (s : Store) (roomIDs : List String)
    (tuples : List StateKeyTuple) (allowWildcards : Bool) : List StrippedEvent :=
  let eventTypes := collectTypes tuples []
  let stateKeys := collectKeys tuples []
  if hasWildcards tuples && allowWildcards then
    (s.filter (fun r => roomIDs.contains r.room_id && eventTypes.contains r.type)).map
      stripRecord
  else
    (s.filter (fun r =>
        roomIDs.contains r.room_id && eventTypes.contains r.type
          && stateKeys.contains r.state_key)).map stripRecord

/-- Spec §8, membership index consistency: the brute-force scan of all
records that `SelectRoomIDsWithMembership` must match — "returns exactly
the rooms where the membership tuple for `u` has
`content_value == membershipValue`".  Written as direct recursion over the
store, independent of the filter/map formulation of the query. -/
def membershipBruteForceScan (s : Store) (userID contentVal : String) : List String :=
  match s with
  | [] => []
  | r :: rest =>
      if r.type = "m.room.member" ∧ r.state_key = userID ∧ r.content_value = contentVal then
        r.room_id :: membershipBruteForceScan rest userID contentVal
      else
        membershipBruteForceScan rest userID contentVal

/-! ### Helper lemmas on keys and the unique constraint -/

theorem matchesTuple_iff_key {r : CurrentStateRecord} {roomID evType stateKey : String} :
    matchesTuple r roomID evType stateKey = true ↔ key r = (roomID, evType, stateKey) := by
  simp [matchesTuple, key, Prod.ext_iff, and_assoc]

theorem sameTupleKey_iff {a b : CurrentStateRecord} :
    sameTupleKey a b = true ↔ key a = key b := by
  simp [sameTupleKey, matchesTuple_iff_key, key]

theorem sameTupleKey_eq_false_iff {a b : CurrentStateRecord} :
    sameTupleKey a b = false ↔ key a ≠ key b := by
  rw [← Bool.not_eq_true, not_iff_not]
  exact sameTupleKey_iff

theorem key_updateRow (old row : CurrentStateRecord) : key (updateRow old row) = key old := rfl

theorem key_recordOfEvent (e : HeaderedEvent) (sk c : String) :
    key (recordOfEvent e sk c) = (e.roomID, e.type, sk) := rfl

theorem distinctKeys_cons_iff {r : CurrentStateRecord} {rest : Store} :
    distinctKeys (r :: rest) = true ↔
      (∀ x ∈ rest, key r ≠ key x) ∧ distinctKeys rest = true := by
  simp only [distinctKeys, Bool.and_eq_true, List.all_eq_true, Bool.not_eq_eq_eq_not,
    Bool.not_true, sameTupleKey_eq_false_iff]

/-! ### Helper lemmas on `upsertRecord` -/

/-- Membership in an upserted store, over a well-formed store: a row either
carries the key of the upserted row together with its four SET columns, or
it is an untouched row of the old store with a different key. -/
theorem upsert_mem_cases {s : Store} {row x : CurrentStateRecord}
    (hwf : distinctKeys s = true) (hx : x ∈ upsertRecord s row) :
    (key x = key row ∧ x.event_id = row.event_id ∧ x.sender = row.sender ∧
        x.headered_event_json = row.headered_event_json ∧
        x.content_value = row.content_value)
      ∨ (x ∈ s ∧ key x ≠ key row) := by
  induction s with
  | nil =>
    simp only [upsertRecord, List.mem_singleton] at hx
    subst hx
    exact Or.inl ⟨rfl, rfl, rfl, rfl, rfl⟩
  | cons r rest ih =>
    obtain ⟨hhead, hrest⟩ := distinctKeys_cons_iff.mp hwf
    rw [upsertRecord] at hx
    by_cases hk : sameTupleKey r row = true
    · rw [if_pos hk] at hx
      have hkey : key r = key row := sameTupleKey_iff.mp hk
      rcases List.mem_cons.mp hx with hx | hx
      · subst hx
        exact Or.inl ⟨(key_updateRow r row).trans hkey, rfl, rfl, rfl, rfl⟩
      · exact Or.inr ⟨List.mem_cons_of_mem r hx,
          fun h => hhead x hx (hkey.trans h.symm)⟩
    · rw [if_neg hk] at hx
      have hkne : key r ≠ key row := sameTupleKey_eq_false_iff.mp (Bool.eq_false_iff.mpr hk)
      rcases List.mem_cons.mp hx with hx | hx
      · exact Or.inr ⟨List.mem_cons.mpr (Or.inl hx), by rw [hx]; exact hkne⟩
      · rcases ih hrest hx with h | h
        · exact Or.inl h
        · exact Or.inr ⟨List.mem_cons_of_mem r h.1, h.2⟩

/-- Upserting preserves the unique-constraint invariant. -/
theorem upsert_distinctKeys {s : Store} {row : CurrentStateRecord}
    (hwf : distinctKeys s = true) : distinctKeys (upsertRecord s row) = true := by
  induction s with
  | nil =>
    simp [upsertRecord, distinctKeys]
  | cons r rest ih =>
    obtain ⟨hhead, hrest⟩ := distinctKeys_cons_iff.mp hwf
    rw [upsertRecord]
    by_cases hk : sameTupleKey r row = true
    · rw [if_pos hk]
      refine distinctKeys_cons_iff.mpr ⟨?_, hrest⟩
      intro x hx
      rw [key_updateRow]
      exact hhead x hx
    · rw [if_neg hk]
      have hkne : key r ≠ key row := sameTupleKey_eq_false_iff.mp (Bool.eq_false_iff.mpr hk)
      refine distinctKeys_cons_iff.mpr ⟨?_, ih hrest⟩
      intro x hx
      rcases upsert_mem_cases hrest hx with h | h
      · exact fun hc => hkne (hc.trans h.1)
      · exact hhead x h.1

/-- After an upsert over a well-formed store, exactly one row carries the
key of the upserted row. -/
theorem upsert_count_one {s : Store} {row : CurrentStateRecord}
    (hwf : distinctKeys s = true) :
    ((upsertRecord s row).filter (fun x => sameTupleKey x row)).length = 1 := by
  induction s with
  | nil =>
    simp [upsertRecord, sameTupleKey_iff]
  | cons r rest ih =>
    obtain ⟨hhead, hrest⟩ := distinctKeys_cons_iff.mp hwf
    rw [upsertRecord]
    by_cases hk : sameTupleKey r row = true
    · rw [if_pos hk]
      have hkey : key r = key row := sameTupleKey_iff.mp hk
      have hheadmatch : sameTupleKey (updateRow r row) row = true :=
        sameTupleKey_iff.mpr ((key_updateRow r row).trans hkey)
      have hnone : rest.filter (fun x => sameTupleKey x row) = [] := by
        rw [List.filter_eq_nil_iff]
        intro x hx hmatch
        exact hhead x hx (hkey.trans (sameTupleKey_iff.mp hmatch).symm)
      simp [List.filter_cons, hheadmatch, hnone]
    · rw [if_neg hk]
      have hkfalse : sameTupleKey r row = false := Bool.eq_false_iff.mpr hk
      simp only [List.filter_cons, hkfalse, Bool.false_eq_true, if_false]
      exact ih hrest

/-- In a well-formed store, at most one row matches any exact tuple. -/
theorem distinctKeys_count_le_one {s : Store} (hwf : distinctKeys s = true)
    (roomID evType stateKey : String) :
    (s.filter (fun r => matchesTuple r roomID evType stateKey)).length ≤ 1 := by
  induction s with
  | nil => simp
  | cons r rest ih =>
    obtain ⟨hhead, hrest⟩ := distinctKeys_cons_iff.mp hwf
    by_cases hm : matchesTuple r roomID evType stateKey = true
    · have hnone : rest.filter (fun x => matchesTuple x roomID evType stateKey) = [] := by
        rw [List.filter_eq_nil_iff]
        intro x hx hmatch
        exact hhead x hx
          ((matchesTuple_iff_key.mp hm).trans (matchesTuple_iff_key.mp hmatch).symm)
      simp [List.filter_cons, hm, hnone]
    · have hmfalse : matchesTuple r roomID evType stateKey = false := Bool.eq_false_iff.mpr hm
      simp only [List.filter_cons, hmfalse, Bool.false_eq_true, if_false]
      exact ih hrest

/-! ### Helper lemmas on `= ANY(...)` membership and the dedup loops -/

theorem contains_iff_mem {xs : List String} {y : String} :
    xs.contains y = true ↔ y ∈ xs :=
  List.elem_iff

theorem mem_collectTypes {tuples : List StateKeyTuple} {y : String} : ∀ {acc : List String},
    y ∈ collectTypes tuples acc ↔ y ∈ acc ∨ y ∈ tuples.map StateKeyTuple.EventType := by
  induction tuples with
  | nil => intro acc; simp [collectTypes]
  | cons t rest ih =>
    intro acc
    rw [collectTypes, ih]
    by_cases h : acc.contains t.EventType = true
    · have hmem : t.EventType ∈ acc := contains_iff_mem.mp h
      rw [if_pos h]
      simp only [List.map_cons, List.mem_cons]
      constructor
      · rintro (h1 | h1)
        · exact Or.inl h1
        · exact Or.inr (Or.inr h1)
      · rintro (h1 | h1 | h1)
        · exact Or.inl h1
        · exact Or.inl (h1 ▸ hmem)
        · exact Or.inr h1
    · rw [if_neg h]
      simp only [List.mem_append, List.mem_singleton, List.map_cons, List.mem_cons]
      tauto

theorem mem_collectKeys {tuples : List StateKeyTuple} {y : String} : ∀ {acc : List String},
    y ∈ collectKeys tuples acc ↔ y ∈ acc ∨ y ∈ tuples.map StateKeyTuple.StateKey := by
  induction tuples with
  | nil => intro acc; simp [collectKeys]
  | cons t rest ih =>
    intro acc
    rw [collectKeys, ih]
    by_cases h : acc.contains t.StateKey = true
    · have hmem : t.StateKey ∈ acc := contains_iff_mem.mp h
      rw [if_pos h]
      simp only [List.map_cons, List.mem_cons]
      constructor
      · rintro (h1 | h1)
        · exact Or.inl h1
        · exact Or.inr (Or.inr h1)
      · rintro (h1 | h1 | h1)
        · exact Or.inl h1
        · exact Or.inl (h1 ▸ hmem)
        · exact Or.inr h1
    · rw [if_neg h]
      simp only [List.mem_append, List.mem_singleton, List.map_cons, List.mem_cons]
      tauto

/-! ### Path characterisations of `SelectBulkStateContent` -/

/-- Exact path: the wildcard branch is not taken, so the query filters by
the room-ID set, the type set and the state-key set, each independently. -/
theorem bulk_exact_mem {s : Store} {roomIDs : List String} {tuples : List StateKeyTuple}
    {allowWildcards : Bool} (hpath : (hasWildcards tuples && allowWildcards) = false)
    (x : StrippedEvent) :
    x ∈ SelectBulkStateContent s roomIDs tuples allowWildcards ↔
      ∃ r, r ∈ s ∧ stripRecord r = x ∧ r.room_id ∈ roomIDs ∧
        r.type ∈ tuples.map StateKeyTuple.EventType ∧
        r.state_key ∈ tuples.map StateKeyTuple.StateKey := by
  simp only [SelectBulkStateContent, hpath, Bool.false_eq_true, if_false, List.mem_map,
    List.mem_filter, Bool.and_eq_true, contains_iff_mem, mem_collectTypes, mem_collectKeys,
    List.not_mem_nil, false_or]
  constructor
  · rintro ⟨r, ⟨hr, ⟨h1, h2⟩, h3⟩, hstrip⟩
    exact ⟨r, hr, hstrip, h1, h2, h3⟩
  · rintro ⟨r, hr, hstrip, h1, h2, h3⟩
    exact ⟨r, ⟨hr, ⟨h1, h2⟩, h3⟩, hstrip⟩

/-- Wildcard path: a wildcard is present and allowed, so the query filters
by the room-ID set and the type set only — no state-key condition at all. -/
theorem bulk_wild_mem {s : Store} {roomIDs : List String} {tuples : List StateKeyTuple}
    {allowWildcards : Bool} (hpath : (hasWildcards tuples && allowWildcards) = true)
    (x : StrippedEvent) :
    x ∈ SelectBulkStateContent s roomIDs tuples allowWildcards ↔
      ∃ r, r ∈ s ∧ stripRecord r = x ∧ r.room_id ∈ roomIDs ∧
        r.type ∈ tuples.map StateKeyTuple.EventType := by
  simp only [SelectBulkStateContent, hpath, if_true, List.mem_map,
    List.mem_filter, Bool.and_eq_true, contains_iff_mem, mem_collectTypes,
    List.not_mem_nil, false_or]
  constructor
  · rintro ⟨r, ⟨hr, h1, h2⟩, hstrip⟩
    exact ⟨r, hr, hstrip, h1, h2⟩
  · rintro ⟨r, hr, hstrip, h1, h2⟩
    exact ⟨r, ⟨hr, h1, h2⟩, hstrip⟩

/-! ### Helper lemmas on deletion and point queries -/

theorem delete_mem {s : Store} {E : String} {r : CurrentStateRecord} :
    r ∈ DeleteRoomStateByEventID s E ↔ r ∈ s ∧ r.event_id ≠ E := by
  simp [DeleteRoomStateByEventID]

theorem delete_noop {s : Store} {E : String} (h : ∀ r ∈ s, r.event_id ≠ E) :
    DeleteRoomStateByEventID s E = s := by
  rw [DeleteRoomStateByEventID, List.filter_eq_self]
  intro a ha
  simp [h a ha]

theorem selectStateEvent_absent {s : Store} {roomID evType stateKey : String}
    (h : ∀ r ∈ s, matchesTuple r roomID evType stateKey = false) :
    SelectStateEvent s roomID evType stateKey = none := by
  rw [SelectStateEvent]
  have hfind : s.find? (fun r => matchesTuple r roomID evType stateKey) = none :=
    List.find?_eq_none.mpr (fun x hx => by simp [h x hx])
  rw [hfind]
  rfl

theorem selectStateEvent_found {s : Store} (hwf : distinctKeys s = true)
    {roomID evType stateKey : String} {r : CurrentStateRecord}
    (hr : r ∈ s) (hm : matchesTuple r roomID evType stateKey = true) :
    SelectStateEvent s roomID evType stateKey = some r.headered_event_json := by
  induction s with
  | nil => cases hr
  | cons a rest ih =>
    obtain ⟨hhead, hrest⟩ := distinctKeys_cons_iff.mp hwf
    rcases List.mem_cons.mp hr with hr | hr
    · subst hr
      simp [SelectStateEvent, hm]
    · have hafalse : matchesTuple a roomID evType stateKey = false := by
        rcases Bool.eq_false_or_eq_true (matchesTuple a roomID evType stateKey) with h0 | h0
        · exact absurd ((matchesTuple_iff_key.mp h0).trans (matchesTuple_iff_key.mp hm).symm)
            (hhead r hr)
        · exact h0
      simpa [SelectStateEvent, hafalse] using ih hrest hr

/-! ### Claim theorems -/

/-- Claim C1: over a store satisfying the unique constraint, any
`UpsertRoomState` call that succeeds leaves the constraint intact (at most
one record per `(room_id, type, state_key)` tuple), leaves exactly one
record for the targeted tuple, whose `event_id`, `sender`,
envelope and `content_value` are those supplied by the call — so after any
sequence of calls targeting the tuple, the last writer wins. -/
theorem upsertState_last_writer_wins (s s1 : Store) (e : HeaderedEvent) (c sk : String)
    (hwf : distinctKeys s = true) (hsk : e.stateKey = some sk)
    (hup : UpsertRoomState s e c = UpsertOutcome.ok s1) :
    distinctKeys s1 = true ∧
    (∀ roomID evType stateKey,
        (s1.filter (fun r => matchesTuple r roomID evType stateKey)).length ≤ 1) ∧
    (s1.filter (fun r => matchesTuple r e.roomID e.type sk)).length = 1 ∧
    (∀ r ∈ s1, matchesTuple r e.roomID e.type sk = true →
        r.event_id = e.eventID ∧ r.sender = e.sender ∧
        r.headered_event_json = marshalHeaderedEvent e ∧ r.content_value = c) := by
  simp only [UpsertRoomState, hsk] at hup
  injection hup with hs1
  subst hs1
  refine ⟨upsert_distinctKeys hwf, ?_, ?_, ?_⟩
  · intro roomID evType stateKey
    exact distinctKeys_count_le_one (upsert_distinctKeys hwf) roomID evType stateKey
  · show (List.filter (fun x => sameTupleKey x (recordOfEvent e sk c))
        (upsertRecord s (recordOfEvent e sk c))).length = 1
    exact upsert_count_one hwf
  · intro r hr hm
    rcases upsert_mem_cases hwf hr with h | h
    · exact ⟨h.2.1, h.2.2.1, h.2.2.2.1, h.2.2.2.2⟩
    · exact absurd (matchesTuple_iff_key.mp hm) h.2

theorem upsertState_last_writer_wins_witness :
    distinctKeys (upsertRecord [recordOfEvent ⟨"!r", "e1", "m.room.member", "@a:hs", some "@a:hs", "b1"⟩ "@a:hs" "join"] (recordOfEvent ⟨"!r", "e2", "m.room.member", "@a:hs", some "@a:hs", "b2"⟩ "@a:hs" "leave")) = true ∧
    (∀ roomID evType stateKey,
        ((upsertRecord [recordOfEvent ⟨"!r", "e1", "m.room.member", "@a:hs", some "@a:hs", "b1"⟩ "@a:hs" "join"] (recordOfEvent ⟨"!r", "e2", "m.room.member", "@a:hs", some "@a:hs", "b2"⟩ "@a:hs" "leave")).filter
            (fun r => matchesTuple r roomID evType stateKey)).length ≤ 1) ∧
    ((upsertRecord [recordOfEvent ⟨"!r", "e1", "m.room.member", "@a:hs", some "@a:hs", "b1"⟩ "@a:hs" "join"] (recordOfEvent ⟨"!r", "e2", "m.room.member", "@a:hs", some "@a:hs", "b2"⟩ "@a:hs" "leave")).filter
        (fun r => matchesTuple r "!r" "m.room.member" "@a:hs")).length = 1 ∧
    (∀ r ∈ upsertRecord [recordOfEvent ⟨"!r", "e1", "m.room.member", "@a:hs", some "@a:hs", "b1"⟩ "@a:hs" "join"] (recordOfEvent ⟨"!r", "e2", "m.room.member", "@a:hs", some "@a:hs", "b2"⟩ "@a:hs" "leave"),
        matchesTuple r "!r" "m.room.member" "@a:hs" = true →
        r.event_id = "e2" ∧ r.sender = "@a:hs" ∧
        r.headered_event_json = marshalHeaderedEvent ⟨"!r", "e2", "m.room.member", "@a:hs", some "@a:hs", "b2"⟩ ∧
        r.content_value = "leave") :=
  upsertState_last_writer_wins
    [recordOfEvent ⟨"!r", "e1", "m.room.member", "@a:hs", some "@a:hs", "b1"⟩ "@a:hs" "join"]
    (upsertRecord [recordOfEvent ⟨"!r", "e1", "m.room.member", "@a:hs", some "@a:hs", "b1"⟩ "@a:hs" "join"] (recordOfEvent ⟨"!r", "e2", "m.room.member", "@a:hs", some "@a:hs", "b2"⟩ "@a:hs" "leave"))
    ⟨"!r", "e2", "m.room.member", "@a:hs", some "@a:hs", "b2"⟩ "leave" "@a:hs"
    (by decide) rfl rfl

/-- Claim C4 (counterexample): the Go code dereferences `event.StateKey()`
unconditionally, so an event with an absent (nil) state key makes
`UpsertRoomState` panic; it does not return — neither an error nor
success.  At the concrete input below the outcome is the panic and is not
`ok` for any resulting store, refuting "fails by returning an error
(rather than ... crashing)". -/
theorem upsertState_nil_state_key_cex :
    UpsertRoomState [] ⟨"!room", "e1", "m.room.name", "@alice:hs", none, "payload"⟩ "val"
        = UpsertOutcome.nilStateKeyPanic ∧
    ∀ s1 : Store,
      UpsertRoomState [] ⟨"!room", "e1", "m.room.name", "@alice:hs", none, "payload"⟩ "val"
        ≠ UpsertOutcome.ok s1 := by
  refine ⟨rfl, ?_⟩
  intro s1 h
  simp only [UpsertRoomState] at h
  exact UpsertOutcome.noConfusion h

/-- Claim C4 (amended): for every event whose state key is absent,
`UpsertRoomState` crashes with a nil-pointer panic before issuing any
write (it does not return an error), and the projection is left
unchanged. -/
theorem upsertState_nil_state_key_panics (s : Store) (e : HeaderedEvent) (c : String)
    (h : e.stateKey = none) :
    UpsertRoomState s e c = UpsertOutcome.nilStateKeyPanic := by
  simp [UpsertRoomState, h]

theorem upsertState_nil_state_key_panics_witness :
    UpsertRoomState [] ⟨"!room", "e1", "m.room.name", "@alice:hs", none, "payload"⟩ "val"
      = UpsertOutcome.nilStateKeyPanic :=
  upsertState_nil_state_key_panics []
    ⟨"!room", "e1", "m.room.name", "@alice:hs", none, "payload"⟩ "val" rfl

/-- Claim C5: `DeleteRoomStateByEventID` removes exactly the records whose
`event_id` equals the argument, independently of the tuple they project;
and in the overwrite scenario — the tuple once held by `e1` has since been
overwritten by `e2` with a different event id — deleting `e1.eventID` is a
no-op and the current record of the tuple (holding `e2`) stays. -/
theorem deleteStateByEventID_event_scoped (s : Store) (E : String) :
    (∀ r, r ∈ DeleteRoomStateByEventID s E ↔ r ∈ s ∧ r.event_id ≠ E) ∧
    (∀ (s1 s2 : Store) (e1 e2 : HeaderedEvent) (c1 c2 sk : String),
        distinctKeys s = true →
        (∀ r ∈ s, r.event_id ≠ e1.eventID) →
        e1.stateKey = some sk → e2.stateKey = some sk →
        e2.roomID = e1.roomID → e2.type = e1.type →
        e2.eventID ≠ e1.eventID →
        UpsertRoomState s e1 c1 = UpsertOutcome.ok s1 →
        UpsertRoomState s1 e2 c2 = UpsertOutcome.ok s2 →
        DeleteRoomStateByEventID s2 e1.eventID = s2 ∧
          ∀ r ∈ s2, matchesTuple r e1.roomID e1.type sk = true →
            r.event_id = e2.eventID) := by
  constructor
  · intro r
    exact delete_mem
  · intro s1 s2 e1 e2 c1 c2 sk hwf hfresh hsk1 hsk2 hroom htype hne hup1 hup2
    simp only [UpsertRoomState, hsk1] at hup1
    injection hup1 with hs1
    subst hs1
    simp only [UpsertRoomState, hsk2] at hup2
    injection hup2 with hs2
    subst hs2
    have hwf1 : distinctKeys (upsertRecord s (recordOfEvent e1 sk c1)) = true :=
      upsert_distinctKeys hwf
    have hkeyeq : key (recordOfEvent e2 sk c2) = key (recordOfEvent e1 sk c1) := by
      rw [key_recordOfEvent, key_recordOfEvent, hroom, htype]
    have hgone : ∀ r ∈ upsertRecord (upsertRecord s (recordOfEvent e1 sk c1))
        (recordOfEvent e2 sk c2), r.event_id ≠ e1.eventID := by
      intro r hr
      rcases upsert_mem_cases hwf1 hr with h | h
      · rw [h.2.1]
        exact hne
      · rcases upsert_mem_cases hwf h.1 with h2 | h2
        · exact absurd (h2.1.trans hkeyeq.symm) h.2
        · exact hfresh r h2.1
    refine ⟨delete_noop hgone, ?_⟩
    intro r hr hm
    rcases upsert_mem_cases hwf1 hr with h | h
    · exact h.2.1
    · exact absurd ((matchesTuple_iff_key.mp hm).trans hkeyeq.symm) h.2

theorem deleteStateByEventID_event_scoped_witness :
    DeleteRoomStateByEventID (upsertRecord (upsertRecord [] (recordOfEvent ⟨"!r", "e1", "m.room.member", "@a:hs", some "@a:hs", "b1"⟩ "@a:hs" "join")) (recordOfEvent ⟨"!r", "e2", "m.room.member", "@a:hs", some "@a:hs", "b2"⟩ "@a:hs" "leave")) "e1"
      = upsertRecord (upsertRecord [] (recordOfEvent ⟨"!r", "e1", "m.room.member", "@a:hs", some "@a:hs", "b1"⟩ "@a:hs" "join")) (recordOfEvent ⟨"!r", "e2", "m.room.member", "@a:hs", some "@a:hs", "b2"⟩ "@a:hs" "leave") ∧
    ∀ r ∈ upsertRecord (upsertRecord [] (recordOfEvent ⟨"!r", "e1", "m.room.member", "@a:hs", some "@a:hs", "b1"⟩ "@a:hs" "join")) (recordOfEvent ⟨"!r", "e2", "m.room.member", "@a:hs", some "@a:hs", "b2"⟩ "@a:hs" "leave"),
      matchesTuple r "!r" "m.room.member" "@a:hs" = true → r.event_id = "e2" :=
  (deleteStateByEventID_event_scoped [] "e1").2
    (upsertRecord [] (recordOfEvent ⟨"!r", "e1", "m.room.member", "@a:hs", some "@a:hs", "b1"⟩ "@a:hs" "join"))
    (upsertRecord (upsertRecord [] (recordOfEvent ⟨"!r", "e1", "m.room.member", "@a:hs", some "@a:hs", "b1"⟩ "@a:hs" "join")) (recordOfEvent ⟨"!r", "e2", "m.room.member", "@a:hs", some "@a:hs", "b2"⟩ "@a:hs" "leave"))
    ⟨"!r", "e1", "m.room.member", "@a:hs", some "@a:hs", "b1"⟩
    ⟨"!r", "e2", "m.room.member", "@a:hs", some "@a:hs", "b2"⟩
    "join" "leave" "@a:hs"
    (by decide) (by intro r hr; exact absurd hr (List.not_mem_nil r))
    rfl rfl rfl rfl (by decide) rfl rfl

/-- Claim C6: deleting an event id that matches no record succeeds and
changes nothing (delete is total in the model — the Go code surfaces only
storage-engine errors, there is no not-found error path), and deletion is
idempotent. -/
theorem deleteStateByEventID_idempotent (s : Store) (E : String) :
    ((∀ r ∈ s, r.event_id ≠ E) → DeleteRoomStateByEventID s E = s) ∧
    DeleteRoomStateByEventID (DeleteRoomStateByEventID s E) E
      = DeleteRoomStateByEventID s E := by
  constructor
  · exact delete_noop
  · apply delete_noop
    intro r hr
    exact (delete_mem.mp hr).2

theorem deleteStateByEventID_idempotent_witness :
    DeleteRoomStateByEventID [⟨"!r", "e9", "m.room.name", "@a:hs", "", "env", "n"⟩] "e1"
      = [⟨"!r", "e9", "m.room.name", "@a:hs", "", "env", "n"⟩] :=
  (deleteStateByEventID_idempotent
      [⟨"!r", "e9", "m.room.name", "@a:hs", "", "env", "n"⟩] "e1").1 (by decide)

/-- Claim C7: `SelectRoomIDsWithMembership` returns exactly the room ids
of the records with type `m.room.member`, state key equal to the user id
and `content_value` equal to the requested membership value — for every
membership value, including `"leave"` (the partial membership index of the
schema does not cover `"leave"`, but the WHERE clause of the query is the same
plain filter for every value) — and this coincides with a brute-force scan
of all records. -/
theorem selectRoomIDsWithMembership_bruteforce (s : Store) (u v : String) :
    SelectRoomIDsWithMembership s u v = membershipBruteForceScan s u v := by
  induction s with
  | nil => rfl
  | cons r rest ih =>
    by_cases hb : (r.type == "m.room.member" && r.state_key == u && r.content_value == v)
        = true
    · have hp : r.type = "m.room.member" ∧ r.state_key = u ∧ r.content_value = v := by
        simpa [and_assoc] using hb
      rw [membershipBruteForceScan, if_pos hp]
      calc SelectRoomIDsWithMembership (r :: rest) u v
          = r.room_id :: SelectRoomIDsWithMembership rest u v := by
            simp only [SelectRoomIDsWithMembership, List.filter_cons, hb, if_true,
              List.map_cons]
        _ = r.room_id :: membershipBruteForceScan rest u v := by rw [ih]
    · have hp : ¬(r.type = "m.room.member" ∧ r.state_key = u ∧ r.content_value = v) := by
        intro hc
        exact hb (by simp [hc.1, hc.2.1, hc.2.2])
      rw [membershipBruteForceScan, if_neg hp]
      have hbf : (r.type == "m.room.member" && r.state_key == u && r.content_value == v)
          = false := Bool.eq_false_iff.mpr hb
      calc SelectRoomIDsWithMembership (r :: rest) u v
          = SelectRoomIDsWithMembership rest u v := by
            simp only [SelectRoomIDsWithMembership, List.filter_cons, hbf,
              Bool.false_eq_true, if_false]
        _ = membershipBruteForceScan rest u v := ih

/-- Claim C2: on the exact path (the wildcard branch not taken),
`SelectBulkStateContent` returns exactly the stripped records whose
`room_id` is in the room-ID set, whose `type` is in the set of requested
types and whose `state_key` is in the set of requested state keys — the
three dimensions matched independently, so a row may be returned whose
`(type, state_key)` combination was never requested as a pair. -/
theorem selectBulkStateContent_exact_path (s : Store) (roomIDs : List String)
    (tuples : List StateKeyTuple) (allowWildcards : Bool)
    (hpath : (hasWildcards tuples && allowWildcards) = false) :
    ∀ x, x ∈ SelectBulkStateContent s roomIDs tuples allowWildcards ↔
      ∃ r, r ∈ s ∧ stripRecord r = x ∧ r.room_id ∈ roomIDs ∧
        r.type ∈ tuples.map StateKeyTuple.EventType ∧
        r.state_key ∈ tuples.map StateKeyTuple.StateKey :=
  fun x => bulk_exact_mem hpath x

theorem selectBulkStateContent_exact_path_witness :
    (hasWildcards [⟨"m.room.a", "kA"⟩, ⟨"m.room.b", "kB"⟩] && false) = false ∧
    stripRecord ⟨"!r", "e9", "m.room.a", "@s:hs", "kB", "envA", "cv"⟩ ∈
      SelectBulkStateContent [⟨"!r", "e9", "m.room.a", "@s:hs", "kB", "envA", "cv"⟩]
        ["!r"] [⟨"m.room.a", "kA"⟩, ⟨"m.room.b", "kB"⟩] false :=
  ⟨by decide,
    (selectBulkStateContent_exact_path
        [⟨"!r", "e9", "m.room.a", "@s:hs", "kB", "envA", "cv"⟩] ["!r"]
        [⟨"m.room.a", "kA"⟩, ⟨"m.room.b", "kB"⟩] false (by decide)
        (stripRecord ⟨"!r", "e9", "m.room.a", "@s:hs", "kB", "envA", "cv"⟩)).mpr
      ⟨⟨"!r", "e9", "m.room.a", "@s:hs", "kB", "envA", "cv"⟩,
        by decide, rfl, by decide, by decide, by decide⟩⟩

/-- Claim C3: with the single filter `("m.room.member", "*")`,
`allowWildcards = false` takes the exact path — only rows whose state key
is literally `"*"` are returned, hence none when no record has that
literal key — while `allowWildcards = true` returns every record of that
type across the given rooms regardless of state key. -/
theorem selectBulkStateContent_wildcard_gating (s : Store) (roomIDs : List String) :
    (∀ x, x ∈ SelectBulkStateContent s roomIDs [⟨"m.room.member", "*"⟩] false ↔
        ∃ r, r ∈ s ∧ stripRecord r = x ∧ r.room_id ∈ roomIDs ∧
          r.type = "m.room.member" ∧ r.state_key = "*") ∧
    (∀ x, x ∈ SelectBulkStateContent s roomIDs [⟨"m.room.member", "*"⟩] true ↔
        ∃ r, r ∈ s ∧ stripRecord r = x ∧ r.room_id ∈ roomIDs ∧
          r.type = "m.room.member") ∧
    ((∀ r ∈ s, r.state_key ≠ "*") →
        SelectBulkStateContent s roomIDs [⟨"m.room.member", "*"⟩] false = []) := by
  refine ⟨?_, ?_, ?_⟩
  · intro x
    rw [bulk_exact_mem (by decide) x]
    simp
  · intro x
    rw [bulk_wild_mem (by decide) x]
    simp
  · intro hnostar
    by_contra hne
    obtain ⟨x, hx⟩ := List.exists_mem_of_ne_nil _ hne
    obtain ⟨r, hr, -, -, -, hsk⟩ := (bulk_exact_mem (by decide) x).mp hx
    exact hnostar r hr (by simpa using hsk)

theorem selectBulkStateContent_wildcard_gating_witness :
    (∀ r ∈ ([⟨"!r", "e1", "m.room.member", "@a:hs", "@a:hs", "env", "join"⟩] : Store),
        r.state_key ≠ "*") ∧
    SelectBulkStateContent [⟨"!r", "e1", "m.room.member", "@a:hs", "@a:hs", "env", "join"⟩]
        ["!r"] [⟨"m.room.member", "*"⟩] false = [] :=
  ⟨by decide,
    (selectBulkStateContent_wildcard_gating
        [⟨"!r", "e1", "m.room.member", "@a:hs", "@a:hs", "env", "join"⟩] ["!r"]).2.2
      (by decide)⟩

/-- Claim C8: on a store satisfying the unique constraint,
`SelectStateEvent` returns `none` (an explicit absent result, not an
error) when no record projects the exact tuple, and the envelope of the
unique current record when one does. -/
theorem selectStateEvent_point_query (s : Store) (roomID evType stateKey : String)
    (hwf : distinctKeys s = true) :
    ((∀ r ∈ s, matchesTuple r roomID evType stateKey = false) →
        SelectStateEvent s roomID evType stateKey = none) ∧
    (∀ r ∈ s, matchesTuple r roomID evType stateKey = true →
        SelectStateEvent s roomID evType stateKey = some r.headered_event_json) :=
  ⟨selectStateEvent_absent, fun _ hr hm => selectStateEvent_found hwf hr hm⟩

theorem selectStateEvent_point_query_witness :
    SelectStateEvent [⟨"!r", "e1", "m.room.name", "@a:hs", "", "env", "n"⟩]
        "!r" "m.room.name" "" = some "env" ∧
    SelectStateEvent [⟨"!r", "e1", "m.room.name", "@a:hs", "", "env", "n"⟩]
        "!r" "m.room.name" "other" = none :=
  ⟨(selectStateEvent_point_query [⟨"!r", "e1", "m.room.name", "@a:hs", "", "env", "n"⟩]
        "!r" "m.room.name" "" (by decide)).2
      ⟨"!r", "e1", "m.room.name", "@a:hs", "", "env", "n"⟩ (by decide) (by decide),
    (selectStateEvent_point_query [⟨"!r", "e1", "m.room.name", "@a:hs", "", "env", "n"⟩]
        "!r" "m.room.name" "other" (by decide)).1 (by decide)⟩

/-- Claim C9: `SelectEventsWithEventIDs` returns exactly the envelopes of
records whose `event_id` appears in the input list; ids matching no record
are silently omitted, and an input matching nothing yields `[]` (order is
characterised only up to membership, as the SQL row order is
unspecified). -/
theorem selectEventsWithEventIDs_exact (s : Store) (eventIDs : List String) :
    (∀ x, x ∈ SelectEventsWithEventIDs s eventIDs ↔
        ∃ r, r ∈ s ∧ r.event_id ∈ eventIDs ∧ r.headered_event_json = x) ∧
    ((∀ r ∈ s, r.event_id ∉ eventIDs) → SelectEventsWithEventIDs s eventIDs = []) := by
  constructor
  · intro x
    simp only [SelectEventsWithEventIDs, List.mem_map, List.mem_filter, Bool.and_eq_true,
      contains_iff_mem]
    constructor
    · rintro ⟨r, ⟨hr, hid⟩, hjson⟩
      exact ⟨r, hr, hid, hjson⟩
    · rintro ⟨r, hr, hid, hjson⟩
      exact ⟨r, ⟨hr, hid⟩, hjson⟩
  · intro h
    rw [SelectEventsWithEventIDs]
    have hnil : s.filter (fun r => eventIDs.contains r.event_id) = [] := by
      rw [List.filter_eq_nil_iff]
      intro r hr hc
      exact h r hr (contains_iff_mem.mp hc)
    rw [hnil]
    rfl

theorem selectEventsWithEventIDs_exact_witness :
    SelectEventsWithEventIDs [⟨"!r", "e1", "m.room.name", "@a:hs", "", "env", "n"⟩]
      ["e7", "e8"] = [] :=
  (selectEventsWithEventIDs_exact [⟨"!r", "e1", "m.room.name", "@a:hs", "", "env", "n"⟩]
      ["e7", "e8"]).2 (by decide)

/-- Claim C10: when `allowWildcards` is true and the state key of some
requested tuple is `"*"`, `SelectBulkStateContent` drops state-key filtering for
every requested type: membership in the result requires only a room-ID
match and a type match, so a type requested only with a specific state key
also yields its records with any other state key. -/
theorem selectBulkStateContent_wildcard_drops_all_keys (s : Store)
    (roomIDs : List String) (tuples : List StateKeyTuple)
    (hw : ∃ t ∈ tuples, t.StateKey = "*") :
    ∀ x, x ∈ SelectBulkStateContent s roomIDs tuples true ↔
      ∃ r, r ∈ s ∧ stripRecord r = x ∧ r.room_id ∈ roomIDs ∧
        r.type ∈ tuples.map StateKeyTuple.EventType := by
  have hpath : (hasWildcards tuples && true) = true := by
    obtain ⟨t, ht, hstar⟩ := hw
    simp only [Bool.and_true, hasWildcards, List.any_eq_true]
    exact ⟨t, ht, by simp [hstar]⟩
  exact fun x => bulk_wild_mem hpath x

theorem selectBulkStateContent_wildcard_drops_all_keys_witness :
    (∃ t ∈ [(⟨"m.room.a", "x"⟩ : StateKeyTuple), ⟨"m.room.b", "*"⟩], t.StateKey = "*") ∧
    stripRecord ⟨"!r", "e5", "m.room.a", "@s:hs", "y", "env", "cv"⟩ ∈
      SelectBulkStateContent [⟨"!r", "e5", "m.room.a", "@s:hs", "y", "env", "cv"⟩]
        ["!r"] [⟨"m.room.a", "x"⟩, ⟨"m.room.b", "*"⟩] true :=
  ⟨⟨⟨"m.room.b", "*"⟩, by decide, rfl⟩,
    (selectBulkStateContent_wildcard_drops_all_keys
        [⟨"!r", "e5", "m.room.a", "@s:hs", "y", "env", "cv"⟩] ["!r"]
        [⟨"m.room.a", "x"⟩, ⟨"m.room.b", "*"⟩]
        ⟨⟨"m.room.b", "*"⟩, by decide, rfl⟩
        (stripRecord ⟨"!r", "e5", "m.room.a", "@s:hs", "y", "env", "cv"⟩)).mpr
      ⟨⟨"!r", "e5", "m.room.a", "@s:hs", "y", "env", "cv"⟩,
        by decide, rfl, by decide, by decide⟩⟩

end Dendrite.CurrentState
